import Mathlib

set_option maxRecDepth 8000

namespace SlackEod

/-!
Shallow embedding of the slack-eod activity-aggregation route
(`src/app/slack-eod/route.ts` and its revised variant, plus the debug route).
Instants are modelled as integer milliseconds since the Unix epoch.
-/

/-! ## Data model -/

structure RawCommit where
  id : String
  title : String
  web_url : String
  deriving DecidableEq, Repr

structure CommitRecord where
  id : String
  title : String
  web_url : String
  branch : String
  deriving DecidableEq, Repr

structure BranchInfo where
  name : String
  lastCommitAt? : Option Int
  deriving DecidableEq, Repr

structure MRRecord where
  title : String
  sourceBranch? : Option String
  web_url : String
  deriving DecidableEq, Repr

structure Window where
  sinceMs : Int
  untilMs : Int
  deriving DecidableEq, Repr

inductive EodError where
  | invalidDateFormat
  deriving DecidableEq, Repr

/-! ## Deduplication (route.ts lines 163-169: filter with a `seen` set,
keeping the first occurrence of each key) -/

def dedupeByAux {α : Type} (key : α → String) (seen : List String) : List α → List α
  | [] => []
  | c :: cs =>
    if key c ∈ seen then dedupeByAux key seen cs
    else c :: dedupeByAux key (key c :: seen) cs

/-- `commits.filter(c => { if (seen.has(c.id)) return false; seen.add(c.id); return true })` -/
def dedupe (commits : List CommitRecord) : List CommitRecord :=
  dedupeByAux (fun c => c.id) [] commits

/-- `Array.from(new Set(xs))`: insertion order, first occurrence kept. -/
def dedupeStr (xs : List String) : List String :=
  dedupeByAux (fun s => s) [] xs

/-! ## Window resolution (route.ts lines 23-33 and 58-70) -/

/-- The fixed IST offset +05:30 in milliseconds. -/
def istOffsetMs : Int := 19800000

/-- Truncate an instant to whole seconds (a locale time string carries no milliseconds). -/
def floorSecMs (t : Int) : Int := (Int.fdiv t 1000) * 1000

/-- route.ts `istNow()`: renders `now` as an IST wall-clock string via
`toLocaleString("en-US", { timeZone: "Asia/Kolkata" })` (second precision) and re-parses
that string with `new Date(...)` in the server's local zone, whose fixed UTC offset in
milliseconds is `localOffsetMs`. -/
def istNow (nowMs localOffsetMs : Int) : Int :=
  floorSecMs (nowMs + istOffsetMs) - localOffsetMs

def isLeap (y : Nat) : Bool :=
  y % 4 == 0 && (y % 100 != 0 || y % 400 == 0)

def daysInMonth (y m : Nat) : Nat :=
  if m == 2 then (if isLeap y then 29 else 28)
  else if m == 4 || m == 6 || m == 9 || m == 11 then 30
  else 31

def digitVal (c : Char) : Nat := c.toNat - 48

/-- Strict `YYYY-MM-DD` parse with calendar validation, the documented input format. -/
def parseYMD (s : String) : Option (Nat × Nat × Nat) :=
  match s.data with
  | [y1, y2, y3, y4, h1, m1, m2, h2, d1, d2] =>
    if y1.isDigit && y2.isDigit && y3.isDigit && y4.isDigit &&
       h1 == '-' && m1.isDigit && m2.isDigit && h2 == '-' &&
       d1.isDigit && d2.isDigit then
      let y := ((digitVal y1 * 10 + digitVal y2) * 10 + digitVal y3) * 10 + digitVal y4
      let m := digitVal m1 * 10 + digitVal m2
      let d := digitVal d1 * 10 + digitVal d2
      if 1 ≤ m && m ≤ 12 && 1 ≤ d && d ≤ daysInMonth y m then some (y, m, d)
      else none
    else none
  | _ => none

/-- Days from the Unix epoch to civil date `y-m-d` (standard civil-calendar algorithm). -/
def daysFromCivil (y : Int) (m d : Nat) : Int :=
  let yAdj : Int := if m ≤ 2 then y - 1 else y
  let era : Int := Int.fdiv yAdj 400
  let yoe : Int := yAdj - era * 400
  let mp : Int := (Int.ofNat m + 9) % 12
  let doy : Int := (153 * mp + 2) / 5 + (Int.ofNat d - 1)
  let doe : Int := yoe * 365 + yoe / 4 - yoe / 100 + doy
  era * 146097 + doe - 719468

/-- The instant of civil midnight of `y-m-d` at a fixed UTC offset (spec wording:
"midnight in the fixed civil timezone (offset +05:30)"). -/
def civilMidnightAtOffsetMs (offsetMs : Int) (y m d : Nat) : Int :=
  86400000 * daysFromCivil (Int.ofNat y) m d - offsetMs

/-- route.ts `istMidnightFromDateString`: `new Date(dateInput + "T00:00:00+05:30")`.
`none` models the Invalid Date whose later `toISOString()` throws. -/
def istMidnightFromDateString (s : String) : Option Int :=
  (parseYMD s).map fun ymd =>
    86400000 * daysFromCivil (Int.ofNat ymd.1) ymd.2.1 ymd.2.2 - istOffsetMs

/-- route.ts lines 58-73: window resolution inside `handleEODRequest`.
`if (dateParam)` is JS truthiness: `undefined` and `""` take the rolling branch.
An unparseable date gives an Invalid Date whose `toISOString()` throws, modelled as
`EodError.invalidDateFormat`. -/
def resolveWindow (dateParam : Option String) (nowMs localOffsetMs : Int) :
    Except EodError Window :=
  match dateParam with
  | some s =>
    if s ≠ "" then
      match istMidnightFromDateString s with
      | some t => Except.ok ⟨t, t + 24 * 60 * 60 * 1000⟩
      | none => Except.error EodError.invalidDateFormat
    else
      let u := istNow nowMs localOffsetMs
      Except.ok ⟨u - 24 * 60 * 60 * 1000, u⟩
  | none =>
    let u := istNow nowMs localOffsetMs
    Except.ok ⟨u - 24 * 60 * 60 * 1000, u⟩

/-- The revised handler's window resolution (unnamed part_001 lines 42-55):
the rolling branch uses `new Date()`, the current absolute instant, directly. -/
def resolveWindowV2 (dateParam : Option String) (nowMs : Int) :
    Except EodError Window :=
  match dateParam with
  | some s =>
    if s ≠ "" then
      match istMidnightFromDateString s with
      | some t => Except.ok ⟨t, t + 24 * 60 * 60 * 1000⟩
      | none => Except.error EodError.invalidDateFormat
    else
      Except.ok ⟨nowMs - 24 * 60 * 60 * 1000, nowMs⟩
  | none =>
    Except.ok ⟨nowMs - 24 * 60 * 60 * 1000, nowMs⟩

/-! ## Branch selection (route.ts lines 86-126) -/

def sevenDaysMs : Int := 7 * 24 * 60 * 60 * 1000

/-- Branches whose latest commit is strictly after `untilMs - margin`
(`b.commit && new Date(b.commit.created_at) > cutoff`). -/
def activeBranches (bs : List BranchInfo) (untilMs margin : Int) : List String :=
  (bs.filter fun b =>
    match b.lastCommitAt? with
    | some t => decide (untilMs - margin < t)
    | none => false).map (fun b => b.name)

/-- `mrRes.data.map(mr => mr.source_branch).filter(Boolean)`. -/
def mrSourceBranches (mrs : List MRRecord) : List String :=
  (mrs.filterMap (fun mr => mr.sourceBranch?)).filter (fun s => s != "")

/-- `Array.from(new Set(allBranches.filter(Boolean)))` over the concatenation of the
active branches and the MR source branches. -/
def selectBranchLists (active mrB : List String) : List String :=
  dedupeStr ((active ++ mrB).filter (fun s => s != ""))

def selectBranches (bs : List BranchInfo) (mrs : List MRRecord) (untilMs : Int) :
    List String :=
  selectBranchLists (activeBranches bs untilMs sevenDaysMs) (mrSourceBranches mrs)

/-! ## Commit collection (route.ts lines 131-161) -/

/-- A failed per-branch commit fetch; `status?` is `err.response?.status`
(absent for network errors without an HTTP response). -/
structure FetchErr where
  status? : Option Nat
  deriving DecidableEq, Repr

/-- route.ts line 157: warn iff `err.response?.status && err.response.status !== 404`
(JS truthiness: a missing or zero status is falsy). -/
def warnsFor (e : FetchErr) : Bool :=
  match e.status? with
  | some st => st != 0 && st != 404
  | none => false

def toCommitRecord (branch : String) (c : RawCommit) : CommitRecord :=
  ⟨c.id, c.title, c.web_url, branch⟩

def collectStep (fetch : String → Except FetchErr (List RawCommit))
    (acc : List CommitRecord × List String) (b : String) :
    List CommitRecord × List String :=
  match fetch b with
  | Except.ok cs => (acc.1 ++ cs.map (toCommitRecord b), acc.2)
  | Except.error e => (acc.1, if warnsFor e then acc.2 ++ [b] else acc.2)

/-- The per-branch commit loop: successful fetches append records tagged with the
branch; failed fetches contribute nothing and optionally record a warning. -/
def collectCommits (fetch : String → Except FetchErr (List RawCommit))
    (branches : List String) : List CommitRecord × List String :=
  branches.foldl (collectStep fetch) ([], [])

/-! ## Merge-request queries (route.ts lines 107-123, 178-214) -/

inductive MRScope where
  | projectScope
  | instanceWide
  deriving DecidableEq, Repr

structure MRQuery where
  scope : MRScope
  authorId? : Option String
  reviewerId? : Option String
  updatedAfter : Int
  updatedBefore : Int
  deriving DecidableEq, Repr

/-- `GET /projects/:id/merge_requests?updated_after&updated_before` (branch gathering). -/
def branchMRQuery (w : Window) : MRQuery :=
  ⟨MRScope.projectScope, none, none, w.sinceMs, w.untilMs⟩

/-- `GET /projects/:id/merge_requests?author_id&updated_after&updated_before`. -/
def createdMRQuery (userId : String) (w : Window) : MRQuery :=
  ⟨MRScope.projectScope, some userId, none, w.sinceMs, w.untilMs⟩

/-- `GET /merge_requests?reviewer_id&updated_after&updated_before` (instance-wide). -/
def reviewedMRQuery (userId : String) (w : Window) : MRQuery :=
  ⟨MRScope.instanceWide, none, some userId, w.sinceMs, w.untilMs⟩

/-- The GitLab side of one run: outcomes of the branch listing, of each MR search,
and of each per-branch commit fetch. -/
structure GitLabData where
  branchList : Except Unit (List BranchInfo)
  mrSearch : MRQuery → Except Unit (List MRRecord)
  commitFetch : String → Except FetchErr (List RawCommit)

/-! ## Digest rendering (route.ts lines 173, 192, 211, 219-228) -/

def commitLine (c : CommitRecord) : String :=
  "• " ++ c.title ++ " (" ++ c.branch ++ ") → " ++ c.web_url

def mrLine (mr : MRRecord) : String :=
  "• " ++ mr.title ++ " (" ++ mr.web_url ++ ")"

/-- `${xs.length ? xs.join("\n") : "None"}` -/
def renderList (xs : List String) : String :=
  if xs.length == 0 then "None" else String.intercalate "\n" xs

/-- The `activity` template literal of route.ts lines 219-228. -/
def buildActivity (commitLines createdMRs reviewedMRs : List String) : String :=
  "\nCommits (" ++ toString commitLines.length ++ "):\n" ++ renderList commitLines ++
  "\n\nMRs Created:\n" ++ renderList createdMRs ++
  "\n\nMRs Reviewed:\n" ++ renderList reviewedMRs ++ "\n"

structure PipelineOut where
  commits : List CommitRecord
  commitWarnings : List String
  createdMRs : List String
  reviewedMRs : List String
  activity : String
  deriving DecidableEq, Repr

/-- Steps 1-5 of `handleEODRequest` after the window is resolved: branch selection
(each fetch failing soft to an empty list), per-branch commit collection, dedup,
the two independent MR collectors (each failing soft to empty), and the activity
text. -/
def runPipeline (userId : String) (w : Window) (g : GitLabData) : PipelineOut :=
  let active := match g.branchList with
    | Except.ok bs => activeBranches bs w.untilMs sevenDaysMs
    | Except.error _ => []
  let mrB := match g.mrSearch (branchMRQuery w) with
    | Except.ok mrs => mrSourceBranches mrs
    | Except.error _ => []
  let branches := selectBranchLists active mrB
  let collected := collectCommits g.commitFetch branches
  let commits := dedupe collected.1
  let created := match g.mrSearch (createdMRQuery userId w) with
    | Except.ok mrs => mrs.map mrLine
    | Except.error _ => []
  let reviewed := match g.mrSearch (reviewedMRQuery userId w) with
    | Except.ok mrs => mrs.map mrLine
    | Except.error _ => []
  { commits := commits
    commitWarnings := collected.2
    createdMRs := created
    reviewedMRs := reviewed
    activity := buildActivity (commits.map commitLine) created reviewed }

/-- `handleEODRequest`: resolve the window, then run the collection pipeline.
The only modelled failure is the invalid-date throw, which escapes the handler. -/
def handleEODRequest (dateParam : Option String) (nowMs localOffsetMs : Int)
    (userId : String) (g : GitLabData) : Except EodError PipelineOut :=
  (resolveWindow dateParam nowMs localOffsetMs).map (fun w => runPipeline userId w g)

structure HttpResult where
  ok : Bool
  status : Nat
  error? : Option EodError
  deriving DecidableEq, Repr

/-- The GET entry point (route.ts lines 285-295): a successful run returns the JSON
result (status 200); a thrown error is caught and returned as `{ok:false}` with
status 500. -/
def GETHandler (dateParam : Option String) (nowMs localOffsetMs : Int)
    (userId : String) (g : GitLabData) : HttpResult :=
  match handleEODRequest dateParam nowMs localOffsetMs userId g with
  | Except.ok _ => ⟨true, 200, none⟩
  | Except.error e => ⟨false, 500, some e⟩

/-! ## Lemmas about the seen-set deduplication -/

theorem dedupeByAux_sublist {α : Type} (key : α → String) (seen : List String)
    (xs : List α) : (dedupeByAux key seen xs).Sublist xs := by
  induction xs generalizing seen with
  | nil => simp [dedupeByAux]
  | cons c cs ih =>
    simp only [dedupeByAux]
    split
    · exact (ih seen).cons c
    · exact (ih _).cons₂ c

theorem mem_of_mem_dedupeByAux {α : Type} {key : α → String} {seen : List String}
    {xs : List α} {c : α} (h : c ∈ dedupeByAux key seen xs) :
    c ∈ xs ∧ key c ∉ seen := by
  induction xs generalizing seen with
  | nil => simp [dedupeByAux] at h
  | cons b bs ih =>
    simp only [dedupeByAux] at h
    by_cases hb : key b ∈ seen
    · rw [if_pos hb] at h
      obtain ⟨h1, h2⟩ := ih h
      exact ⟨List.mem_cons_of_mem _ h1, h2⟩
    · rw [if_neg hb] at h
      rcases List.mem_cons.1 h with rfl | h'
      · exact ⟨List.mem_cons_self _ _, hb⟩
      · obtain ⟨h1, h2⟩ := ih h'
        exact ⟨List.mem_cons_of_mem _ h1,
          fun hs => h2 (List.mem_cons_of_mem _ hs)⟩

theorem key_mem_dedupeByAux {α : Type} (key : α → String) (seen : List String)
    (xs : List α) (y : String) :
    y ∈ (dedupeByAux key seen xs).map key ↔ y ∉ seen ∧ y ∈ xs.map key := by
  induction xs generalizing seen with
  | nil => simp [dedupeByAux]
  | cons b bs ih =>
    simp only [dedupeByAux]
    by_cases hb : key b ∈ seen
    · rw [if_pos hb, ih]
      simp only [List.map_cons, List.mem_cons]
      constructor
      · rintro ⟨h1, h2⟩
        exact ⟨h1, Or.inr h2⟩
      · rintro ⟨h1, h2 | h2⟩
        · exact absurd (h2 ▸ hb) h1
        · exact ⟨h1, h2⟩
    · rw [if_neg hb]
      simp only [List.map_cons, List.mem_cons, ih (key b :: seen)]
      constructor
      · rintro (rfl | ⟨h1, h2⟩)
        · exact ⟨hb, Or.inl rfl⟩
        · exact ⟨fun hs => h1 (Or.inr hs), Or.inr h2⟩
      · rintro ⟨h1, rfl | h2⟩
        · exact Or.inl rfl
        · by_cases hyb : y = key b
          · exact Or.inl hyb
          · refine Or.inr ⟨fun hs => ?_, h2⟩
            rcases hs with h | h
            · exact hyb h
            · exact h1 h

theorem dedupeByAux_nodup {α : Type} (key : α → String) (seen : List String)
    (xs : List α) : ((dedupeByAux key seen xs).map key).Nodup := by
  induction xs generalizing seen with
  | nil => simp [dedupeByAux]
  | cons b bs ih =>
    simp only [dedupeByAux]
    by_cases hb : key b ∈ seen
    · rw [if_pos hb]
      exact ih seen
    · rw [if_neg hb]
      simp only [List.map_cons, List.nodup_cons]
      refine ⟨fun hmem => ?_, ih _⟩
      rw [key_mem_dedupeByAux] at hmem
      exact hmem.1 (List.mem_cons_self _ _)

theorem dedupeByAux_find? {α : Type} (key : α → String) (seen : List String)
    (xs : List α) :
    ∀ d ∈ dedupeByAux key seen xs, xs.find? (fun c => key c == key d) = some d := by
  induction xs generalizing seen with
  | nil =>
    intro d hd
    simp [dedupeByAux] at hd
  | cons b bs ih =>
    intro d hd
    simp only [dedupeByAux] at hd
    by_cases hb : key b ∈ seen
    · rw [if_pos hb] at hd
      have hnotin := (mem_of_mem_dedupeByAux hd).2
      have hne : ¬((fun c => key c == key d) b = true) := by
        simp only [beq_iff_eq]
        intro he
        exact hnotin (he ▸ hb)
      exact (List.find?_cons_of_neg bs hne).trans (ih seen d hd)
    · rw [if_neg hb] at hd
      rcases List.mem_cons.1 hd with rfl | hd'
      · exact List.find?_cons_of_pos bs (by simp)
      · have hnotin := (mem_of_mem_dedupeByAux hd').2
        have hne : ¬((fun c => key c == key d) b = true) := by
          simp only [beq_iff_eq]
          intro he
          exact hnotin (List.mem_cons.2 (Or.inl he.symm))
        exact (List.find?_cons_of_neg bs hne).trans (ih (key b :: seen) d hd')

theorem dedupeByAux_eq_self {α : Type} (key : α → String) (seen : List String)
    (xs : List α) (h1 : (xs.map key).Nodup) (h2 : ∀ c ∈ xs, key c ∉ seen) :
    dedupeByAux key seen xs = xs := by
  induction xs generalizing seen with
  | nil => rfl
  | cons b bs ih =>
    rw [List.map_cons, List.nodup_cons] at h1
    simp only [dedupeByAux]
    rw [if_neg (h2 b (List.mem_cons_self _ _))]
    congr 1
    apply ih
    · exact h1.2
    · intro c hc
      simp only [List.mem_cons]
      rintro (he | hs)
      · exact h1.1 (he ▸ List.mem_map_of_mem key hc)
      · exact h2 c (List.mem_cons_of_mem _ hc) hs

/-! ## Claim theorems: deduplication -/

/-- C1: `dedupe` keyed on commit id returns each commit identity exactly once, in the
order of first occurrence in the input (a sublist of the input), and the record kept
for each identity is the first occurrence in the input, hence the branch recorded for
a duplicated identity is the branch of its first occurrence. -/
theorem dedupe_unique_first_occurrence (xs : List CommitRecord) :
    (dedupe xs).Sublist xs ∧
    ((dedupe xs).map (fun c => c.id)).Nodup ∧
    (∀ c ∈ xs, ∃ d ∈ dedupe xs, d.id = c.id) ∧
    (∀ d ∈ dedupe xs, xs.find? (fun c => c.id == d.id) = some d) := by
  refine ⟨dedupeByAux_sublist _ [] xs, dedupeByAux_nodup _ [] xs, ?_, ?_⟩
  · intro c hc
    have hmem : c.id ∈ (dedupe xs).map (fun c => c.id) := by
      rw [dedupe, key_mem_dedupeByAux]
      exact ⟨List.not_mem_nil _, List.mem_map_of_mem _ hc⟩
    obtain ⟨d, hd, hid⟩ := List.mem_map.1 hmem
    exact ⟨d, hd, hid⟩
  · exact dedupeByAux_find? (fun c => c.id) [] xs

/-- Witness for C1 at a concrete duplicated input: the record kept for id "a" is the
first occurrence, carrying branch "br1". -/
theorem dedupe_unique_first_occurrence_witness :
    List.find? (fun c => c.id == "a")
      ([⟨"a", "t", "u", "br1"⟩, ⟨"a", "t2", "u2", "br2"⟩] : List CommitRecord) =
      some ⟨"a", "t", "u", "br1"⟩ :=
  (dedupe_unique_first_occurrence
      [⟨"a", "t", "u", "br1"⟩, ⟨"a", "t2", "u2", "br2"⟩]).2.2.2
    ⟨"a", "t", "u", "br1"⟩ (by decide)

/-- C10: `dedupe` is idempotent, and it is the identity on inputs whose commit ids are
already pairwise distinct. -/
theorem dedupe_idempotent (xs : List CommitRecord) :
    dedupe (dedupe xs) = dedupe xs ∧
    (((xs.map (fun c => c.id)).Nodup) → dedupe xs = xs) := by
  constructor
  · exact dedupeByAux_eq_self _ [] (dedupe xs) (dedupeByAux_nodup _ [] xs)
      (fun c _ => List.not_mem_nil _)
  · intro h
    exact dedupeByAux_eq_self _ [] xs h (fun c _ => List.not_mem_nil _)

/-! ## Claim theorems: window resolution -/

theorem parseYMD_ne_empty {s : String} {r : Nat × Nat × Nat}
    (h : parseYMD s = some r) : s ≠ "" := by
  intro he
  rw [he] at h
  have h0 : parseYMD "" = none := rfl
  rw [h0] at h
  exact Option.noConfusion h

/-- C2: for a valid `YYYY-MM-DD` date parameter, the resolved window starts at civil
midnight of that date at the fixed offset +05:30, and its end minus its start is
exactly 24 hours. -/
theorem resolveWindow_calendar_day (s : String) (y m d : Nat)
    (nowMs localOffsetMs : Int) (h : parseYMD s = some (y, m, d)) :
    resolveWindow (some s) nowMs localOffsetMs =
      Except.ok ⟨civilMidnightAtOffsetMs istOffsetMs y m d,
        civilMidnightAtOffsetMs istOffsetMs y m d + 24 * 60 * 60 * 1000⟩ ∧
    (∀ w, resolveWindow (some s) nowMs localOffsetMs = Except.ok w →
      w.untilMs - w.sinceMs = 24 * 60 * 60 * 1000) := by
  have hne : s ≠ "" := parseYMD_ne_empty h
  have hmid : istMidnightFromDateString s =
      some (civilMidnightAtOffsetMs istOffsetMs y m d) := by
    rw [istMidnightFromDateString, h]
    rfl
  have hres : resolveWindow (some s) nowMs localOffsetMs =
      Except.ok ⟨civilMidnightAtOffsetMs istOffsetMs y m d,
        civilMidnightAtOffsetMs istOffsetMs y m d + 24 * 60 * 60 * 1000⟩ := by
    simp only [resolveWindow]
    rw [if_pos hne, hmid]
  refine ⟨hres, ?_⟩
  intro w hw
  rw [hres] at hw
  injection hw with hw'
  subst hw'
  simp only [Window.untilMs, Window.sinceMs]
  omega

/-- Witness for C2 at the date 2024-01-01. -/
theorem resolveWindow_calendar_day_witness :
    resolveWindow (some "2024-01-01") 0 0 =
      Except.ok ⟨civilMidnightAtOffsetMs istOffsetMs 2024 1 1,
        civilMidnightAtOffsetMs istOffsetMs 2024 1 1 + 24 * 60 * 60 * 1000⟩ :=
  (resolveWindow_calendar_day "2024-01-01" 2024 1 1 0 0 (by decide)).1

/-- C3 (code bug in route.ts): with no date parameter, route.ts takes
`until = istNow()`, which re-parses an IST wall-clock string in the server's local
zone; at server-local offset 0 and now = 1700000000000 ms this yields
1700019800000 = now + 5.5h, not the absolute instant now. The revised handler
(`resolveWindowV2`, unnamed part_001) returns `until = now` and
`since = now - 24h` exactly as the spec states. -/
theorem rolling_window_until_shifted :
    resolveWindow none 1700000000000 0 =
      Except.ok ⟨1699933400000, 1700019800000⟩ ∧
    (1700019800000 : Int) ≠ 1700000000000 ∧
    resolveWindowV2 none 1700000000000 =
      Except.ok ⟨1699913600000, 1700000000000⟩ := by
  refine ⟨by rfl, by decide, by rfl⟩

/-- C6: a date parameter that is present (and truthy) but not parseable as a calendar
date makes the request fail: the GET handler returns ok = false with HTTP status 500,
carrying the InvalidDateFormat error. -/
theorem invalid_date_fails (s : String) (nowMs localOffsetMs : Int) (userId : String)
    (g : GitLabData) (hne : s ≠ "") (hp : parseYMD s = none) :
    GETHandler (some s) nowMs localOffsetMs userId g =
      ⟨false, 500, some EodError.invalidDateFormat⟩ := by
  have hmid : istMidnightFromDateString s = none := by
    rw [istMidnightFromDateString, hp]
    rfl
  have hres : resolveWindow (some s) nowMs localOffsetMs =
      Except.error EodError.invalidDateFormat := by
    simp only [resolveWindow]
    rw [if_pos hne, hmid]
  simp only [GETHandler, handleEODRequest, hres, Except.map]

/-- Witness for C6 at the unparseable string "not-a-date". -/
theorem invalid_date_fails_witness :
    GETHandler (some "not-a-date") 0 0 "u"
      ⟨Except.error (), fun _ => Except.error (), fun _ => Except.error ⟨none⟩⟩ =
      ⟨false, 500, some EodError.invalidDateFormat⟩ :=
  invalid_date_fails "not-a-date" 0 0 "u"
    ⟨Except.error (), fun _ => Except.error (), fun _ => Except.error ⟨none⟩⟩
    (by decide) (by decide)

/-- Witness for C10 at a concrete input with distinct ids. -/
theorem dedupe_idempotent_witness :
    dedupe [⟨"a", "t1", "u1", "b1"⟩, ⟨"b", "t2", "u2", "b2"⟩] =
      [⟨"a", "t1", "u1", "b1"⟩, ⟨"b", "t2", "u2", "b2"⟩] :=
  (dedupe_idempotent [⟨"a", "t1", "u1", "b1"⟩, ⟨"b", "t2", "u2", "b2"⟩]).2 (by decide)

/-! ## Claim theorems: commit collection fault isolation -/

theorem collectCommits_go (fetch : String → Except FetchErr (List RawCommit))
    (bs : List String) (acc : List CommitRecord × List String) :
    bs.foldl (collectStep fetch) acc =
      (acc.1 ++ (bs.map (fun b => match fetch b with
          | Except.ok cs => cs.map (toCommitRecord b)
          | Except.error _ => [])).flatten,
       acc.2 ++ bs.filter (fun b => match fetch b with
          | Except.ok _ => false
          | Except.error e => warnsFor e)) := by
  induction bs generalizing acc with
  | nil => simp
  | cons b bs ih =>
    rw [List.foldl_cons, ih]
    rcases hf : fetch b with e | cs
    · simp only [collectStep, hf, List.map_cons, List.flatten_cons, List.filter_cons,
        List.append_assoc]
      by_cases hw : warnsFor e
      · simp [hw]
      · simp [hw]
    · simp only [collectStep, hf, List.map_cons, List.flatten_cons, List.filter_cons,
        List.append_assoc]
      simp

/-- C4 counterexample: branch "alpha" fails with an error that carries no HTTP status
(a network failure, which is neither a 404 nor a success), branch "beta" yields one
commit. The claim says any non-404 failure is recorded as a warning, but route.ts
warns only when `err.response?.status` is truthy: the warning list stays empty, while
(isolation) beta's commit is still collected. -/
theorem collect_no_warning_for_statusless_failure :
    collectCommits
      (fun b => if b = "alpha" then Except.error ⟨none⟩
        else Except.ok [⟨"c1", "t1", "u1"⟩]) ["alpha", "beta"] =
      ([⟨"c1", "t1", "u1", "beta"⟩], []) ∧
    "alpha" ∉ (collectCommits
      (fun b => if b = "alpha" then Except.error ⟨none⟩
        else Except.ok [⟨"c1", "t1", "u1"⟩]) ["alpha", "beta"]).2 := by
  refine ⟨by rfl, by decide⟩

/-- C4 (amended): a branch whose commit query fails contributes zero commits and no
per-branch failure aborts collection — the collected commits are exactly the
concatenation of the successful branches' mapped commits in branch order (so a branch
set where one branch errors and another yields N commits still contains those N
commits) — and a warning is recorded exactly for the branches whose failure carries a
nonzero HTTP status other than 404; 404 and statusless failures are skipped
silently. -/
theorem collectCommits_isolation (fetch : String → Except FetchErr (List RawCommit))
    (bs : List String) :
    (collectCommits fetch bs).1 = (bs.map (fun b => match fetch b with
        | Except.ok cs => cs.map (toCommitRecord b)
        | Except.error _ => [])).flatten ∧
    (collectCommits fetch bs).2 = bs.filter (fun b => match fetch b with
        | Except.ok _ => false
        | Except.error e => warnsFor e) := by
  rw [collectCommits, collectCommits_go]
  simp

/-! ## Claim theorems: branch selection -/

theorem mem_activeBranches {bs : List BranchInfo} {untilMs margin : Int} {s : String} :
    s ∈ activeBranches bs untilMs margin ↔
      ∃ b ∈ bs, b.name = s ∧
        ∃ t, b.lastCommitAt? = some t ∧ untilMs - margin < t := by
  simp only [activeBranches, List.mem_map, List.mem_filter]
  constructor
  · rintro ⟨b, ⟨hb, hcond⟩, rfl⟩
    refine ⟨b, hb, rfl, ?_⟩
    rcases hopt : b.lastCommitAt? with _ | t
    · rw [hopt] at hcond
      simp at hcond
    · rw [hopt] at hcond
      exact ⟨t, rfl, by simpa using hcond⟩
  · rintro ⟨b, hb, rfl, t, hopt, hlt⟩
    refine ⟨b, ⟨hb, ?_⟩, rfl⟩
    rw [hopt]
    simpa using hlt

theorem mem_mrSourceBranches {mrs : List MRRecord} {s : String} :
    s ∈ mrSourceBranches mrs ↔ s ≠ "" ∧ ∃ mr ∈ mrs, mr.sourceBranch? = some s := by
  simp only [mrSourceBranches, List.mem_filter, List.mem_filterMap]
  constructor
  · rintro ⟨⟨mr, hmr, hsb⟩, hne⟩
    exact ⟨by simpa using hne, mr, hmr, hsb⟩
  · rintro ⟨hne, mr, hmr, hsb⟩
    exact ⟨⟨mr, hmr, hsb⟩, by simpa using hne⟩

theorem mem_dedupeStr {xs : List String} {s : String} :
    s ∈ dedupeStr xs ↔ s ∈ xs := by
  have h := key_mem_dedupeByAux (fun s => s) [] xs s
  simpa using h

theorem dedupeStr_nodup (xs : List String) : (dedupeStr xs).Nodup := by
  have h := dedupeByAux_nodup (fun s => s) [] xs
  simpa using h

/-- C5: the selected branch list contains each name exactly once, and a name is
selected iff it is nonempty and is either an active branch (latest commit strictly
after `until - 7 days`) or the source branch recorded on some merge request updated
in the window. -/
theorem selectBranches_spec (bs : List BranchInfo) (mrs : List MRRecord)
    (untilMs : Int) :
    (selectBranches bs mrs untilMs).Nodup ∧
    ∀ s : String, s ∈ selectBranches bs mrs untilMs ↔
      (s ≠ "" ∧
        ((∃ b ∈ bs, b.name = s ∧
            ∃ t, b.lastCommitAt? = some t ∧ untilMs - sevenDaysMs < t) ∨
          ∃ mr ∈ mrs, mr.sourceBranch? = some s)) := by
  constructor
  · exact dedupeStr_nodup _
  · intro s
    rw [selectBranches, selectBranchLists, mem_dedupeStr]
    simp only [List.mem_filter, List.mem_append, mem_activeBranches,
      mem_mrSourceBranches, bne_iff_ne, ne_eq]
    constructor
    · rintro ⟨hA | hM, hne⟩
      · exact ⟨hne, Or.inl hA⟩
      · exact ⟨hne, Or.inr hM.2⟩
    · rintro ⟨hne, hA | hM⟩
      · exact ⟨Or.inl hA, hne⟩
      · exact ⟨Or.inr ⟨hne, hM⟩, hne⟩

/-- Witness for C5: a branch that is only an MR source branch is selected. -/
theorem selectBranches_spec_witness :
    "feat" ∈ selectBranches [⟨"main", some 100⟩] [⟨"mr1", some "feat", "url"⟩] 50 :=
  ((selectBranches_spec [⟨"main", some 100⟩] [⟨"mr1", some "feat", "url"⟩] 50).2
      "feat").mpr (by decide)

/-- C9: the active-branch set is monotone in the recency margin: if `m1 ≤ m2`, every
branch active for margin `m1` is active for margin `m2`. -/
theorem activeBranches_monotone (bs : List BranchInfo) (untilMs m1 m2 : Int)
    (h : m1 ≤ m2) :
    ∀ s ∈ activeBranches bs untilMs m1, s ∈ activeBranches bs untilMs m2 := by
  intro s hs
  rw [mem_activeBranches] at hs ⊢
  obtain ⟨b, hb, hname, t, hopt, hlt⟩ := hs
  exact ⟨b, hb, hname, t, hopt, by omega⟩

/-- Witness for C9 with margins 0 ≤ 10. -/
theorem activeBranches_monotone_witness :
    "main" ∈ activeBranches [⟨"main", some 100⟩] 50 10 :=
  activeBranches_monotone [⟨"main", some 100⟩] 50 0 10 (by decide) "main" (by decide)

/-! ## Claim theorems: digest rendering and MR collectors -/

theorem runPipeline_activity_shape (userId : String) (w : Window) (g : GitLabData) :
    (runPipeline userId w g).activity =
      buildActivity ((runPipeline userId w g).commits.map commitLine)
        (runPipeline userId w g).createdMRs (runPipeline userId w g).reviewedMRs := rfl

/-- C7: when the deduplicated commit list and both MR lists are all empty, the
rendered digest shows the commit count "0" in the commits header and the literal
"None" in both the MRs Created and MRs Reviewed sections. -/
theorem empty_digest_rendering (userId : String) (w : Window) (g : GitLabData)
    (h1 : (runPipeline userId w g).commits = [])
    (h2 : (runPipeline userId w g).createdMRs = [])
    (h3 : (runPipeline userId w g).reviewedMRs = []) :
    (runPipeline userId w g).activity =
      "\nCommits (0):\nNone\n\nMRs Created:\nNone\n\nMRs Reviewed:\nNone\n" := by
  rw [runPipeline_activity_shape, h1, h2, h3]
  rfl

/-- Witness for C7: a run in which every upstream fetch returns empty data. -/
theorem empty_digest_rendering_witness :
    (runPipeline "u" ⟨0, 86400000⟩
        ⟨Except.ok [], fun _ => Except.ok [], fun _ => Except.ok []⟩).activity =
      "\nCommits (0):\nNone\n\nMRs Created:\nNone\n\nMRs Reviewed:\nNone\n" :=
  empty_digest_rendering "u" ⟨0, 86400000⟩
    ⟨Except.ok [], fun _ => Except.ok [], fun _ => Except.ok []⟩ rfl rfl rfl

theorem runPipeline_createdMRs (userId : String) (w : Window) (g : GitLabData) :
    (runPipeline userId w g).createdMRs =
      (match g.mrSearch (createdMRQuery userId w) with
        | Except.ok mrs => mrs.map mrLine
        | Except.error _ => []) := rfl

theorem runPipeline_reviewedMRs (userId : String) (w : Window) (g : GitLabData) :
    (runPipeline userId w g).reviewedMRs =
      (match g.mrSearch (reviewedMRQuery userId w) with
        | Except.ok mrs => mrs.map mrLine
        | Except.error _ => []) := rfl

theorem runPipeline_commits (userId : String) (w : Window) (g : GitLabData) :
    (runPipeline userId w g).commits =
      dedupe (collectCommits g.commitFetch (selectBranchLists
        (match g.branchList with
          | Except.ok bs => activeBranches bs w.untilMs sevenDaysMs
          | Except.error _ => [])
        (match g.mrSearch (branchMRQuery w) with
          | Except.ok mrs => mrSourceBranches mrs
          | Except.error _ => []))).1 := rfl

theorem createdMRQuery_ne_reviewedMRQuery (userId : String) (w : Window) :
    createdMRQuery userId w ≠ reviewedMRQuery userId w :=
  fun h => MRScope.noConfusion (congrArg MRQuery.scope h)

theorem reviewedMRQuery_ne_createdMRQuery (userId : String) (w : Window) :
    reviewedMRQuery userId w ≠ createdMRQuery userId w :=
  fun h => MRScope.noConfusion (congrArg MRQuery.scope h)

theorem branchMRQuery_ne_reviewedMRQuery (userId : String) (w : Window) :
    branchMRQuery w ≠ reviewedMRQuery userId w :=
  fun h => MRScope.noConfusion (congrArg MRQuery.scope h)

theorem branchMRQuery_ne_createdMRQuery (userId : String) (w : Window) :
    branchMRQuery w ≠ createdMRQuery userId w :=
  fun h => Option.noConfusion (congrArg MRQuery.authorId? h)

/-- C8: the reviewed-MR collector queries the instance-wide scope filtered by
reviewer identity and the authored-MR collector queries the project scope filtered
by author identity; failing either MR query (replacing its answer by an error)
degrades only that list to empty, leaving the other MR list and the collected
commits unchanged. -/
theorem mr_collectors_scope_and_independence (userId : String) (w : Window)
    (bl : Except Unit (List BranchInfo))
    (ms : MRQuery → Except Unit (List MRRecord))
    (cf : String → Except FetchErr (List RawCommit)) :
    (reviewedMRQuery userId w).scope = MRScope.instanceWide ∧
    (reviewedMRQuery userId w).reviewerId? = some userId ∧
    (createdMRQuery userId w).scope = MRScope.projectScope ∧
    (createdMRQuery userId w).authorId? = some userId ∧
    (runPipeline userId w
      ⟨bl, Function.update ms (reviewedMRQuery userId w) (Except.error ()), cf⟩).reviewedMRs
        = [] ∧
    (runPipeline userId w
      ⟨bl, Function.update ms (reviewedMRQuery userId w) (Except.error ()), cf⟩).createdMRs
        = (runPipeline userId w ⟨bl, ms, cf⟩).createdMRs ∧
    (runPipeline userId w
      ⟨bl, Function.update ms (reviewedMRQuery userId w) (Except.error ()), cf⟩).commits
        = (runPipeline userId w ⟨bl, ms, cf⟩).commits ∧
    (runPipeline userId w
      ⟨bl, Function.update ms (createdMRQuery userId w) (Except.error ()), cf⟩).createdMRs
        = [] ∧
    (runPipeline userId w
      ⟨bl, Function.update ms (createdMRQuery userId w) (Except.error ()), cf⟩).reviewedMRs
        = (runPipeline userId w ⟨bl, ms, cf⟩).reviewedMRs ∧
    (runPipeline userId w
      ⟨bl, Function.update ms (createdMRQuery userId w) (Except.error ()), cf⟩).commits
        = (runPipeline userId w ⟨bl, ms, cf⟩).commits := by
  refine ⟨rfl, rfl, rfl, rfl, ?_, ?_, ?_, ?_, ?_, ?_⟩
  · simp only [runPipeline_reviewedMRs, Function.update_same]
  · simp only [runPipeline_createdMRs,
      Function.update_noteq (createdMRQuery_ne_reviewedMRQuery userId w)]
  · simp only [runPipeline_commits,
      Function.update_noteq (branchMRQuery_ne_reviewedMRQuery userId w)]
  · simp only [runPipeline_createdMRs, Function.update_same]
  · simp only [runPipeline_reviewedMRs,
      Function.update_noteq (reviewedMRQuery_ne_createdMRQuery userId w)]
  · simp only [runPipeline_commits,
      Function.update_noteq (branchMRQuery_ne_createdMRQuery userId w)]

end SlackEod
